import Mathlib

/-!
Shallow embedding of the `PropagateScopeDependencies` compiler pass
(`src/compiler/forget/src/ReactiveScopes/PropagateScopeDependencies.ts`).

The pass walks a reactive function's block tree and populates, for every
reactive scope, its `dependencies`, `declarations` (escapees) and
`reassignments`. The TypeScript code mutates `ReactiveScope` objects and
the `Context` class in place; here all mutable state is gathered into a
single `Context` structure that is threaded through the walk, with the
per-scope output containers stored in maps keyed by scope id.

JS `Map`s become association lists (`mapGet` / `mapSet`, where `set`
overwrites in place and otherwise appends, like `Map.set`), and JS `Set`s
of objects become lists with membership-checked insertion (`setAdd`),
under the standing IR assumption that structurally equal identifiers /
scopes are the same object (ids are unique).

The HIR type definitions, the operand visitors and the reactivity oracle
(`inferReactiveIdentifiers`) live outside the excerpted source; they are
modelled from the spec where indicated.
-/

/-- JS Map.get on an association list: the entry with the given key. -/
def mapGet {κ α : Type} [DecidableEq κ] : List (κ × α) → κ → Option α
  | [], _ => none
  | (k, v) :: rest, k' => if k = k' then some v else mapGet rest k'

/-- JS Map.set on an association list: overwrite the existing entry in
place when the key is present, otherwise append a new entry. -/
def mapSet {κ α : Type} [DecidableEq κ] : List (κ × α) → κ → α → List (κ × α)
  | [], k, v => [(k, v)]
  | (k', v') :: rest, k, v =>
    if k' = k then (k, v) :: rest else (k', v') :: mapSet rest k v

/-- JS Set.add: append unless an equal element is already present. -/
def setAdd {α : Type} [DecidableEq α] (s : List α) (x : α) : List α :=
  if x ∈ s then s else s ++ [x]

/-- A reactive scope as this pass sees it: its id and its instruction-id
range `[start, end)`. The mutable output containers (`dependencies`,
`declarations`, `reassignments`) of the TypeScript object are stored
separately in the `Context`, keyed by `id`. -/
structure ReactiveScope where
  id : Nat
  rangeStart : Nat
  rangeEnd : Nat
deriving DecidableEq, Repr

/-- Modelled from the spec (the HIR module is outside the excerpt):
an identifier is a uniquely-numbered value slot with an optional
human-readable name (absent for compiler-generated temporaries), a
mutable range (of which only `.start` is read by this pass) and an
optional owning scope. -/
structure Identifier where
  id : Nat
  name : Option String
  mutableRangeStart : Nat
  scope : Option ReactiveScope
deriving DecidableEq, Repr

/-- Modelled from the spec: a `Place` is a use-site reference to an
identifier; the extra use-site context carried by the HIR type is never
inspected by this pass, so only the identifier is kept. -/
structure Place where
  identifier : Identifier
deriving DecidableEq, Repr

/-- A dependency descriptor: a root place plus either `none` (the whole
value) or an ordered list of property keys. -/
structure ReactiveScopeDependency where
  place : Place
  path : Option (List String)
deriving DecidableEq, Repr

/-- Modelled from the spec / HIR: the lvalue kinds of an instruction
output; this pass only distinguishes `Reassign` from the rest. -/
inductive InstructionKind where
  | Const
  | Let
  | Reassign
deriving DecidableEq, Repr

/-- An instruction output: the assigned place and whether it is a fresh
declaration or a reassignment. -/
structure LValue where
  place : Place
  kind : InstructionKind
deriving DecidableEq, Repr

/-- Classification of a declaration record (enum DeclKind in the source). -/
inductive DeclKind where
  | Const
  | Dynamic
deriving DecidableEq, Repr

/-- A declaration record: kind, defining instruction id, and the scope the
value originated from (if any). -/
structure Decl where
  kind : DeclKind
  id : Nat
  scope : Option ReactiveScope
deriving DecidableEq, Repr

/-- Modelled from the spec / HIR: instruction values. `PropertyLoad` is the
one form this pass treats specially; every other value form is abstracted
as `Other` carrying the list of operand places that the (out-of-excerpt)
operand visitors would enumerate for it. -/
inductive ReactiveValue where
  | PropertyLoad (object : Place) (property : String)
  | Other (operands : List Place)
deriving DecidableEq, Repr

/-- An IR instruction: an optional output and a value. -/
structure ReactiveInstruction where
  lvalue : Option LValue
  value : ReactiveValue
deriving DecidableEq, Repr

mutual
/-- An item of a reactive block: a nested scope, an instruction, or a
control-flow terminal. -/
inductive ReactiveItem where
  | scope (scope : ReactiveScope) (instructions : List ReactiveItem)
  | instruction (instr : ReactiveInstruction)
  | terminal (terminal : ReactiveTerminal)

/-- The closed set of control-flow terminals handled by the walker. -/
inductive ReactiveTerminal where
  | breakT
  | continueT
  | returnT (value : Option Place)
  | throwT (value : Place)
  | forT (init : ReactiveValue) (test : ReactiveValue) (update : ReactiveValue)
      (loop : List ReactiveItem)
  | whileT (test : ReactiveValue) (loop : List ReactiveItem)
  | ifT (test : Place) (consequent : List ReactiveItem)
      (alternate : Option (List ReactiveItem))
  | switchT (test : Place) (cases : List (Option (List ReactiveItem)))
end

/-- The input function: optional top-level identifier, parameters, body. -/
structure ReactiveFunction where
  id : Option Identifier
  params : List Place
  body : List ReactiveItem

/-- The analysis state of the `Context` class, together with the per-scope
output containers that the TypeScript pass mutates in place on the
`ReactiveScope` objects (here keyed by scope id):
`scopeDeclarations` holds each scope's `declarations` map,
`scopeReassignments` holds each scope's `reassignments` set, and
`scopeDependencies` holds each scope's final `dependencies` set as
assigned when the walker exits the scope. -/
structure Context where
  declarations : List (Nat × Decl)
  dependencies : List ReactiveScopeDependency
  reactiveIdentifiers : List Identifier
  properties : List (Identifier × ReactiveScopeDependency)
  scopes : List ReactiveScope
  scopeDeclarations : List (Nat × List (Nat × Identifier))
  scopeReassignments : List (Nat × List Identifier)
  scopeDependencies : List (Nat × List ReactiveScopeDependency)
deriving DecidableEq, Repr

/-- Context.declare: record (or overwrite) the declaration for an
identifier. -/
def declare (ctx : Context) (identifier : Identifier) (decl : Decl) : Context :=
  { ctx with declarations := mapSet ctx.declarations identifier.id decl }

/-- Context.#isScopeActive: whether the scope is on the current stack. -/
def isScopeActive (ctx : Context) (scope : ReactiveScope) : Bool :=
  decide (scope ∈ ctx.scopes)

/-- The `decl.scope == null || !this.#isScopeActive(decl.scope)` test is
phrased via this helper: a `null` scope is never active. -/
def isScopeActiveOpt (ctx : Context) : Option ReactiveScope → Bool
  | none => false
  | some s => isScopeActive ctx s

/-- Context.currentScope: the innermost open scope. The stack is kept with
its top at the head (TS pushes at the back and reads `.at(-1)`;
membership, top and pop are representation-independent). -/
def currentScope (ctx : Context) : Option ReactiveScope :=
  ctx.scopes.head?

/-- Context.isReactive: membership in the precomputed oracle set. -/
def isReactive (ctx : Context) (id : Identifier) : Bool :=
  decide (id ∈ ctx.reactiveIdentifiers)

/-- The scope's `declarations` map (empty when never touched). -/
def scopeDeclarationsOf (ctx : Context) (sid : Nat) : List (Nat × Identifier) :=
  (mapGet ctx.scopeDeclarations sid).getD []

/-- The scope's `reassignments` set (empty when never touched). -/
def scopeReassignmentsOf (ctx : Context) (sid : Nat) : List Identifier :=
  (mapGet ctx.scopeReassignments sid).getD []

/-- The `nextDependency` computation shared verbatim by
Context.declareProperty and Context.visitProperty: extend the object's
recorded alias path (if any) by the property key, else start a fresh
single-key path rooted at the object. -/
def propertyDependency (ctx : Context) (object : Place) (property : String) :
    ReactiveScopeDependency :=
  match mapGet ctx.properties object.identifier with
  | none => { place := object, path := some [property] }
  | some objectDependency =>
    { place := objectDependency.place,
      path := some ((objectDependency.path.getD []) ++ [property]) }

/-- Context.declareProperty: record the alias path for the lvalue. -/
def declareProperty (ctx : Context) (lvalue : Place) (object : Place)
    (property : String) : Context :=
  { ctx with
    properties :=
      mapSet ctx.properties lvalue.identifier (propertyDependency ctx object property) }

/-- The alias-resolution step at the top of Context.visitDependency: a
path-qualified operand is used as-is; a whole-value operand whose
identifier is anonymous and has a recorded property alias resolves to
that alias; otherwise the operand is used as-is. -/
def resolveDependency (ctx : Context) (dependency : ReactiveScopeDependency) :
    ReactiveScopeDependency :=
  match dependency.path with
  | some _ => dependency
  | none =>
    match mapGet ctx.properties dependency.place.identifier with
    | some propDep =>
      if dependency.place.identifier.name = none then propDep else dependency
    | none => dependency

/-- The common leading prefix length of two paths (the `commonPathIndex`
loop in Context.visitDependency). -/
def commonPathIndex : List String → List String → Nat
  | a :: operandRest, b :: depRest =>
    if a = b then commonPathIndex operandRest depRest + 1 else 0
  | _, _ => 0

/-- The merge-with-subsumption loop of Context.visitDependency (the scan
over `this.#dependencies` with early returns): an existing entry with the
same root and whole-value path covers the candidate (unchanged); an
existing path entry is deleted and replaced when the candidate is
whole-value; an existing path entry whose path is a prefix of the
candidate's covers it (unchanged); otherwise the scan continues, and a
candidate surviving the whole scan is appended. -/
def mergeDependency : List ReactiveScopeDependency → ReactiveScopeDependency →
    List ReactiveScopeDependency
  | [], cand => [cand]
  | dep :: rest, cand =>
    if dep.place.identifier.id ≠ cand.place.identifier.id then
      dep :: mergeDependency rest cand
    else
      match dep.path with
      | none => dep :: rest
      | some depPath =>
        match cand.path with
        | none => rest ++ [cand]
        | some operandPath =>
          if commonPathIndex operandPath depPath = depPath.length then
            dep :: rest
          else
            dep :: mergeDependency rest cand

/-- The escape-promotion step of Context.visitDependency: when the
declaration for the resolved root records an originating scope that is no
longer on the stack, add the root identifier to that scope's
`declarations` map (keyed by identifier id). -/
def escapePromotion (ctx : Context) (decl : Option Decl) (ident : Identifier) :
    Context :=
  match decl with
  | some d =>
    match d.scope with
    | some s =>
      if isScopeActive ctx s then ctx
      else
        { ctx with
          scopeDeclarations :=
            mapSet ctx.scopeDeclarations s.id
              (mapSet (scopeDeclarationsOf ctx s.id) ident.id ident) }
    | none => ctx
  | none => ctx

/-- The qualification-and-merge step of Context.visitDependency: the
resolved candidate joins the current working dependency set iff there is
a current scope, a declaration exists, its kind is not Const, it was
defined strictly before the scope's range start, and its originating
scope (if any) is not active. -/
def qualifyDependency (ctx : Context) (decl : Option Decl)
    (maybeDependency : ReactiveScopeDependency) : Context :=
  match currentScope ctx, decl with
  | some c, some d =>
    if d.kind ≠ DeclKind.Const ∧ d.id < c.rangeStart ∧
        isScopeActiveOpt ctx d.scope = false then
      { ctx with dependencies := mergeDependency ctx.dependencies maybeDependency }
    else ctx
  | _, _ => ctx

/-- Context.visitDependency: alias resolution, then escape promotion, then
qualification and merge. -/
def visitDependency (ctx : Context) (dependency : ReactiveScopeDependency) :
    Context :=
  let maybeDependency := resolveDependency ctx dependency
  let decl := mapGet ctx.declarations maybeDependency.place.identifier.id
  let ctx1 := escapePromotion ctx decl maybeDependency.place.identifier
  qualifyDependency ctx1 decl maybeDependency

/-- Context.visitOperand: visit a whole-value dependency on the place. -/
def visitOperand (ctx : Context) (place : Place) : Context :=
  visitDependency ctx { place := place, path := none }

/-- Context.visitProperty: visit the extended property dependency. -/
def visitProperty (ctx : Context) (object : Place) (property : String) : Context :=
  visitDependency ctx (propertyDependency ctx object property)

/-- Context.visitReassignment: record a reassignment, in the current
scope's set, of an identifier owned by a different scope than its
declaration records. -/
def visitReassignment (ctx : Context) (lvalue : LValue) : Context :=
  if lvalue.kind ≠ InstructionKind.Reassign then ctx
  else
    let declaration := mapGet ctx.declarations lvalue.place.identifier.id
    match currentScope ctx, lvalue.place.identifier.scope, declaration with
    | some c, some s, some d =>
      if d.scope ≠ some s then
        { ctx with
          scopeReassignments :=
            mapSet ctx.scopeReassignments c.id
              (setAdd (scopeReassignmentsOf ctx c.id) lvalue.place.identifier) }
      else ctx
    | _, _, _ => ctx

/-- Modelled from the spec / HIR visitors (outside the excerpt): the
operand places of an instruction value. A property load's sole operand is
its object; `Other` carries its operand list directly. -/
def eachReactiveValueOperand : ReactiveValue → List Place
  | .PropertyLoad object _ => [object]
  | .Other operands => operands

/-- visitInstructionValue: a property load with an output only records the
alias; a property load in value position visits the property; any other
value visits each operand as a whole-value dependency. -/
def visitInstructionValue (ctx : Context) (value : ReactiveValue)
    (lvalue : Option LValue) : Context :=
  match value with
  | .PropertyLoad object property =>
    match lvalue with
    | some lv => declareProperty ctx lv.place object property
    | none => visitProperty ctx object property
  | .Other _ =>
    (eachReactiveValueOperand value).foldl (fun c operand => visitOperand c operand) ctx

/-- visitInstruction: visit the value, then (when there is an output)
record any cross-scope reassignment and declare the output with a kind
taken from the reactivity oracle, owned by the current scope. -/
def visitInstruction (ctx : Context) (instr : ReactiveInstruction) : Context :=
  let ctx1 := visitInstructionValue ctx instr.value instr.lvalue
  match instr.lvalue with
  | none => ctx1
  | some lvalue =>
    let ctx2 := visitReassignment ctx1 lvalue
    let kind := if isReactive ctx2 lvalue.place.identifier
      then DeclKind.Dynamic else DeclKind.Const
    declare ctx2 lvalue.place.identifier
      { kind := kind,
        id := lvalue.place.identifier.mutableRangeStart,
        scope := currentScope ctx2 }

/-- visitReactiveValue: the sub-expression forms outside this model's value
grammar are absent, so every value takes the default branch and visits
its operands. -/
def visitReactiveValue (ctx : Context) (value : ReactiveValue) : Context :=
  (eachReactiveValueOperand value).foldl (fun c operand => visitOperand c operand) ctx

mutual
/-- The walker over a block's items in order. -/
def visit (ctx : Context) : List ReactiveItem → Context
  | [] => ctx
  | item :: rest => visit (visitItem ctx item) rest

/-- One block item: a scope is entered (fresh working set, pushed stack),
its body visited, the collected set assigned as the scope's dependencies,
and each collected entry re-offered to the enclosing context; an
instruction or terminal is visited directly. -/
def visitItem (ctx : Context) : ReactiveItem → Context
  | .scope scope instructions =>
    let previousDependencies := ctx.dependencies
    let ctx1 := { ctx with dependencies := [], scopes := scope :: ctx.scopes }
    let ctx2 := visit ctx1 instructions
    let scopedDependencies := ctx2.dependencies
    let ctx3 := { ctx2 with
      scopes := ctx2.scopes.tail,
      dependencies := previousDependencies,
      scopeDependencies := mapSet ctx2.scopeDependencies scope.id scopedDependencies }
    scopedDependencies.foldl (fun c dep => visitDependency c dep) ctx3
  | .instruction instr => visitInstruction ctx instr
  | .terminal t => visitTerminal ctx t

/-- Terminal dispatch, following the source's case order. -/
def visitTerminal (ctx : Context) : ReactiveTerminal → Context
  | .breakT => ctx
  | .continueT => ctx
  | .returnT value =>
    match value with
    | none => ctx
    | some v => visitOperand ctx v
  | .throwT value => visitOperand ctx value
  | .forT init test update loop =>
    let ctx1 := visitReactiveValue ctx init
    let ctx2 := visitReactiveValue ctx1 test
    let ctx3 := visitReactiveValue ctx2 update
    visit ctx3 loop
  | .whileT test loop =>
    let ctx1 := visitReactiveValue ctx test
    visit ctx1 loop
  | .ifT test consequent alternate =>
    let ctx1 := visitOperand ctx test
    let ctx2 := visit ctx1 consequent
    match alternate with
    | none => ctx2
    | some alt => visit ctx2 alt
  | .switchT test cases =>
    let ctx1 := visitOperand ctx test
    visitCases ctx1 cases

/-- Visit each switch case's block when present. -/
def visitCases (ctx : Context) : List (Option (List ReactiveItem)) → Context
  | [] => ctx
  | c :: rest =>
    let ctx1 := match c with
      | none => ctx
      | some block => visit ctx block
    visitCases ctx1 rest
end

/-- The initial context of propagateScopeDependencies: the oracle set is
installed, the function's own identifier (when present) is declared Const
at instruction id 0 with no owning scope, and every parameter is declared
Dynamic at instruction id 0 with no owning scope. -/
def initContext (reactiveIdentifiers : List Identifier) (fn : ReactiveFunction) :
    Context :=
  let ctx : Context :=
    { declarations := [],
      dependencies := [],
      reactiveIdentifiers := reactiveIdentifiers,
      properties := [],
      scopes := [],
      scopeDeclarations := [],
      scopeReassignments := [],
      scopeDependencies := [] }
  let ctx1 := match fn.id with
    | none => ctx
    | some fnId => declare ctx fnId { kind := DeclKind.Const, id := 0, scope := none }
  fn.params.foldl
    (fun c param => declare c param.identifier
      { kind := DeclKind.Dynamic, id := 0, scope := none })
    ctx1

/-- propagateScopeDependencies: initialize the declarations and walk the
body. The oracle set (computed by `inferReactiveIdentifiers`, outside the
excerpt) is taken as an input, per the spec's external-oracle contract. -/
def propagateScopeDependencies (reactiveIdentifiers : List Identifier)
    (fn : ReactiveFunction) : Context :=
  visit (initContext reactiveIdentifiers fn) fn.body

/-! ### Basic frame and map lemmas -/

theorem mapGet_mapSet {κ α : Type} [DecidableEq κ] (m : List (κ × α)) (k k' : κ)
    (v : α) :
    mapGet (mapSet m k v) k' = if k = k' then some v else mapGet m k' := by
  induction m with
  | nil => simp [mapSet, mapGet]
  | cons hd tl ih =>
    obtain ⟨k0, v0⟩ := hd
    by_cases h0 : k0 = k
    · subst h0
      by_cases h1 : k0 = k'
      · subst h1; simp [mapSet, mapGet]
      · simp [mapSet, mapGet, h1]
    · by_cases h1 : k0 = k'
      · subst h1
        have hk : ¬ k = k0 := fun h => h0 h.symm
        simp [mapSet, mapGet, h0, hk]
      · simp [mapSet, mapGet, h0, h1, ih]

theorem escapePromotion_frame (ctx : Context) (decl : Option Decl)
    (ident : Identifier) :
    (escapePromotion ctx decl ident).declarations = ctx.declarations ∧
    (escapePromotion ctx decl ident).dependencies = ctx.dependencies ∧
    (escapePromotion ctx decl ident).scopes = ctx.scopes ∧
    (escapePromotion ctx decl ident).reactiveIdentifiers = ctx.reactiveIdentifiers ∧
    (escapePromotion ctx decl ident).properties = ctx.properties ∧
    (escapePromotion ctx decl ident).scopeReassignments = ctx.scopeReassignments ∧
    (escapePromotion ctx decl ident).scopeDependencies = ctx.scopeDependencies := by
  unfold escapePromotion
  split
  · split
    · split <;> simp
    · simp
  · simp

theorem qualifyDependency_frame (ctx : Context) (decl : Option Decl)
    (m : ReactiveScopeDependency) :
    (qualifyDependency ctx decl m).declarations = ctx.declarations ∧
    (qualifyDependency ctx decl m).scopes = ctx.scopes ∧
    (qualifyDependency ctx decl m).reactiveIdentifiers = ctx.reactiveIdentifiers ∧
    (qualifyDependency ctx decl m).properties = ctx.properties ∧
    (qualifyDependency ctx decl m).scopeDeclarations = ctx.scopeDeclarations ∧
    (qualifyDependency ctx decl m).scopeReassignments = ctx.scopeReassignments ∧
    (qualifyDependency ctx decl m).scopeDependencies = ctx.scopeDependencies := by
  unfold qualifyDependency
  split
  · split <;> simp
  · simp

/-! ### C1: the qualification test -/

/-- Spec-side qualification predicate, written from the spec's sentence:
the current scope `C` is non-null, a declaration record exists for the
root identifier, its kind is Dynamic (not Const), its defining
instruction id is strictly less than `C.range.start`, and either it has
no owning scope or its owning scope is not on the current scope stack. -/
def qualifiesSpec (ctx : Context) (root : Identifier) : Bool :=
  match currentScope ctx, mapGet ctx.declarations root.id with
  | some c, some d =>
    decide (d.kind = DeclKind.Dynamic) && decide (d.id < c.rangeStart) &&
      (match d.scope with
       | none => true
       | some s => decide (s ∉ ctx.scopes))
  | _, _ => false

theorem qualifiesSpec_iff (ctx : Context) (root : Identifier) :
    qualifiesSpec ctx root = true ↔
      ∃ c d, currentScope ctx = some c ∧ mapGet ctx.declarations root.id = some d ∧
        d.kind ≠ DeclKind.Const ∧ d.id < c.rangeStart ∧
        isScopeActiveOpt ctx d.scope = false := by
  unfold qualifiesSpec
  split
  · rename_i c d hc hd
    rw [hc, hd]
    rcases d with ⟨kind, i, s⟩
    cases kind <;> rcases s with _ | s <;>
      simp [isScopeActiveOpt, isScopeActive]
  · rename_i x1 x2 h
    simp only [Bool.false_eq_true, false_iff]
    rintro ⟨c, d, hc, hd, -⟩
    exact h c d hc hd

/-- C1: the resolved candidate is offered to (merged into) the current
working dependency set exactly when the spec's qualification test holds:
the current scope is non-null, a declaration record exists for the root,
its kind is Dynamic, its defining instruction id is strictly less than
the scope's range start, and its owning scope (if any) is not on the
current scope stack; when the test fails the working set is unchanged. -/
theorem visitDependency_qualification (ctx : Context) (dep : ReactiveScopeDependency) :
    (qualifiesSpec ctx (resolveDependency ctx dep).place.identifier = true →
      (visitDependency ctx dep).dependencies =
        mergeDependency ctx.dependencies (resolveDependency ctx dep)) ∧
    (qualifiesSpec ctx (resolveDependency ctx dep).place.identifier = false →
      (visitDependency ctx dep).dependencies = ctx.dependencies) := by
  have hvd : visitDependency ctx dep =
      qualifyDependency
        (escapePromotion ctx
          (mapGet ctx.declarations (resolveDependency ctx dep).place.identifier.id)
          (resolveDependency ctx dep).place.identifier)
        (mapGet ctx.declarations (resolveDependency ctx dep).place.identifier.id)
        (resolveDependency ctx dep) := rfl
  rw [hvd]
  set E := escapePromotion ctx
    (mapGet ctx.declarations (resolveDependency ctx dep).place.identifier.id)
    (resolveDependency ctx dep).place.identifier with hE
  obtain ⟨hdecls, hdeps, hscopes, -, -, -, -⟩ := escapePromotion_frame ctx
    (mapGet ctx.declarations (resolveDependency ctx dep).place.identifier.id)
    (resolveDependency ctx dep).place.identifier
  rw [← hE] at hdecls hdeps hscopes
  have hcur : currentScope E = currentScope ctx := by
    simp [currentScope, hscopes]
  have hact : ∀ os, isScopeActiveOpt E os = isScopeActiveOpt ctx os := by
    intro os
    cases os <;> simp [isScopeActiveOpt, isScopeActive, hscopes]
  constructor
  · intro hq
    rw [qualifiesSpec_iff] at hq
    obtain ⟨c, d, hc, hd, h1, h2, h3⟩ := hq
    unfold qualifyDependency
    rw [hcur, hc, hd]
    rw [← hact d.scope] at h3
    simp [h1, h2, h3, hdeps]
  · intro hq
    unfold qualifyDependency
    split
    · rename_i c d hc hd
      split
      · rename_i hcond
        exfalso
        obtain ⟨h1, h2, h3⟩ := hcond
        have hq' : qualifiesSpec ctx (resolveDependency ctx dep).place.identifier = true := by
          rw [qualifiesSpec_iff]
          refine ⟨c, d, ?_, hd, h1, h2, ?_⟩
          · rw [← hcur]; exact hc
          · rw [← hact d.scope]; exact h3
        rw [hq'] at hq
        cases hq
      · exact hdeps
    · exact hdeps

/-- A sample analysis state: a Dynamic declaration for identifier 1 made
at instruction 0 with no owning scope, while a scope with range `[1, 3)`
is open. -/
def sampleCtx : Context :=
  { declarations := [(1, { kind := DeclKind.Dynamic, id := 0, scope := none })],
    dependencies := [],
    reactiveIdentifiers := [],
    properties := [],
    scopes := [{ id := 1, rangeStart := 1, rangeEnd := 3 }],
    scopeDeclarations := [],
    scopeReassignments := [],
    scopeDependencies := [] }

/-- A sample whole-value dependency on named identifier 1. -/
def sampleDep : ReactiveScopeDependency :=
  { place := { identifier := { id := 1, name := some "p", mutableRangeStart := 0, scope := none } },
    path := none }

theorem visitDependency_qualification_witness :
    qualifiesSpec sampleCtx (resolveDependency sampleCtx sampleDep).place.identifier = true ∧
    (visitDependency sampleCtx sampleDep).dependencies =
      mergeDependency sampleCtx.dependencies (resolveDependency sampleCtx sampleDep) :=
  ⟨by decide, (visitDependency_qualification sampleCtx sampleDep).1 (by decide)⟩

/-! ### C2, C3: the merge-with-subsumption step -/

theorem commonPathIndex_self (l : List String) : commonPathIndex l l = l.length := by
  induction l with
  | nil => rfl
  | cons a rest ih => simp [commonPathIndex, ih]

theorem mergeDependency_cons_ne (dep : ReactiveScopeDependency)
    (rest : List ReactiveScopeDependency) (cand : ReactiveScopeDependency)
    (h : dep.place.identifier.id ≠ cand.place.identifier.id) :
    mergeDependency (dep :: rest) cand = dep :: mergeDependency rest cand := by
  rw [mergeDependency, if_pos h]

theorem mergeDependency_cons_whole (dep : ReactiveScopeDependency)
    (rest : List ReactiveScopeDependency) (cand : ReactiveScopeDependency)
    (h : ¬ dep.place.identifier.id ≠ cand.place.identifier.id)
    (hdp : dep.path = none) :
    mergeDependency (dep :: rest) cand = dep :: rest := by
  rw [mergeDependency, if_neg h]
  simp only [hdp]

theorem mergeDependency_cons_swap (dep : ReactiveScopeDependency)
    (rest : List ReactiveScopeDependency) (cand : ReactiveScopeDependency)
    (depPath : List String)
    (h : ¬ dep.place.identifier.id ≠ cand.place.identifier.id)
    (hdp : dep.path = some depPath) (hcp : cand.path = none) :
    mergeDependency (dep :: rest) cand = rest ++ [cand] := by
  rw [mergeDependency, if_neg h]
  simp only [hdp, hcp]

theorem mergeDependency_cons_covered (dep : ReactiveScopeDependency)
    (rest : List ReactiveScopeDependency) (cand : ReactiveScopeDependency)
    (depPath operandPath : List String)
    (h : ¬ dep.place.identifier.id ≠ cand.place.identifier.id)
    (hdp : dep.path = some depPath) (hcp : cand.path = some operandPath)
    (hpre : commonPathIndex operandPath depPath = depPath.length) :
    mergeDependency (dep :: rest) cand = dep :: rest := by
  rw [mergeDependency, if_neg h]
  simp only [hdp, hcp]
  rw [if_pos hpre]

theorem mergeDependency_cons_next (dep : ReactiveScopeDependency)
    (rest : List ReactiveScopeDependency) (cand : ReactiveScopeDependency)
    (depPath operandPath : List String)
    (h : ¬ dep.place.identifier.id ≠ cand.place.identifier.id)
    (hdp : dep.path = some depPath) (hcp : cand.path = some operandPath)
    (hpre : ¬ commonPathIndex operandPath depPath = depPath.length) :
    mergeDependency (dep :: rest) cand = dep :: mergeDependency rest cand := by
  rw [mergeDependency, if_neg h]
  simp only [hdp, hcp]
  rw [if_neg hpre]

/-- Every entry of the merged set is an old entry or the candidate. -/
theorem mergeDependency_mem (deps : List ReactiveScopeDependency)
    (cand : ReactiveScopeDependency) :
    ∀ x ∈ mergeDependency deps cand, x ∈ deps ∨ x = cand := by
  induction deps with
  | nil =>
    intro x hx
    simp [mergeDependency] at hx
    exact Or.inr hx
  | cons dep rest ih =>
    intro x hx
    by_cases hid : dep.place.identifier.id ≠ cand.place.identifier.id
    · rw [mergeDependency_cons_ne dep rest cand hid] at hx
      rcases List.mem_cons.mp hx with h | h
      · exact Or.inl (by simp [h])
      · rcases ih x h with h' | h'
        · exact Or.inl (List.mem_cons_of_mem _ h')
        · exact Or.inr h'
    · rcases hdp : dep.path with _ | depPath
      · rw [mergeDependency_cons_whole dep rest cand hid hdp] at hx
        exact Or.inl hx
      · rcases hcp : cand.path with _ | operandPath
        · rw [mergeDependency_cons_swap dep rest cand depPath hid hdp hcp] at hx
          rcases List.mem_append.mp hx with h | h
          · exact Or.inl (List.mem_cons_of_mem _ h)
          · exact Or.inr (List.mem_singleton.mp h)
        · by_cases hpre : commonPathIndex operandPath depPath = depPath.length
          · rw [mergeDependency_cons_covered dep rest cand depPath operandPath
              hid hdp hcp hpre] at hx
            exact Or.inl hx
          · rw [mergeDependency_cons_next dep rest cand depPath operandPath
              hid hdp hcp hpre] at hx
            rcases List.mem_cons.mp hx with h | h
            · exact Or.inl (by simp [h])
            · rcases ih x h with h' | h'
              · exact Or.inl (List.mem_cons_of_mem _ h')
              · exact Or.inr h'

/-- C2: subsumption idempotence. Offering a path-qualified candidate a
second time never changes the set (and from an empty set two offers leave
exactly the one entry); offering the whole value after a path entry for
the same root replaces it by the single whole-value entry; offering a
path after a whole-value entry for the same root is a no-op. -/
theorem mergeDependency_subsumption :
    (∀ (deps : List ReactiveScopeDependency) (cand : ReactiveScopeDependency)
        (p : List String), cand.path = some p →
        mergeDependency (mergeDependency deps cand) cand = mergeDependency deps cand) ∧
    (∀ (cand : ReactiveScopeDependency) (p : List String), cand.path = some p →
        mergeDependency (mergeDependency [] cand) cand = [cand]) ∧
    (∀ (pl : Place) (key : String),
        mergeDependency [{ place := pl, path := some [key] }] { place := pl, path := none } =
          [{ place := pl, path := none }]) ∧
    (∀ (pl : Place) (key : String),
        mergeDependency [{ place := pl, path := none }] { place := pl, path := some [key] } =
          [{ place := pl, path := none }]) := by
  have main : ∀ (deps : List ReactiveScopeDependency) (cand : ReactiveScopeDependency)
      (p : List String), cand.path = some p →
      mergeDependency (mergeDependency deps cand) cand = mergeDependency deps cand := by
    intro deps cand p hp
    induction deps with
    | nil =>
      show mergeDependency [cand] cand = [cand]
      have hself : ¬ cand.place.identifier.id ≠ cand.place.identifier.id := by simp
      rw [mergeDependency_cons_covered cand [] cand p p hself hp hp
        (commonPathIndex_self p)]
    | cons dep rest ih =>
      by_cases hid : dep.place.identifier.id ≠ cand.place.identifier.id
      · rw [mergeDependency_cons_ne dep rest cand hid,
          mergeDependency_cons_ne dep (mergeDependency rest cand) cand hid, ih]
      · rcases hdp : dep.path with _ | depPath
        · rw [mergeDependency_cons_whole dep rest cand hid hdp,
            mergeDependency_cons_whole dep rest cand hid hdp]
        · by_cases hpre : commonPathIndex p depPath = depPath.length
          · rw [mergeDependency_cons_covered dep rest cand depPath p hid hdp hp hpre,
              mergeDependency_cons_covered dep rest cand depPath p hid hdp hp hpre]
          · rw [mergeDependency_cons_next dep rest cand depPath p hid hdp hp hpre,
              mergeDependency_cons_next dep (mergeDependency rest cand) cand depPath p
                hid hdp hp hpre, ih]
  refine ⟨main, ?_, ?_, ?_⟩
  · intro cand p hp
    rw [main [] cand p hp]
    rfl
  · intro pl key
    have hself : ¬ (({ place := pl, path := some [key] } :
        ReactiveScopeDependency)).place.identifier.id ≠
        (({ place := pl, path := none } : ReactiveScopeDependency)).place.identifier.id := by
      simp
    rw [mergeDependency_cons_swap _ [] _ [key] hself rfl rfl]
    rfl
  · intro pl key
    have hself : ¬ (({ place := pl, path := none } :
        ReactiveScopeDependency)).place.identifier.id ≠
        (({ place := pl, path := some [key] } : ReactiveScopeDependency)).place.identifier.id := by
      simp
    rw [mergeDependency_cons_whole _ [] _ hself rfl]

/-- The root place `a` used in the concrete merge examples. -/
def samplePlaceA : Place :=
  { identifier := { id := 7, name := some "a", mutableRangeStart := 0, scope := none } }

/-- The path dependency `a.b` used in the concrete merge examples. -/
def sampleDepAB : ReactiveScopeDependency :=
  { place := samplePlaceA, path := some ["b"] }

theorem mergeDependency_subsumption_witness :
    sampleDepAB.path = some ["b"] ∧
    mergeDependency (mergeDependency [] sampleDepAB) sampleDepAB =
      mergeDependency [] sampleDepAB :=
  ⟨rfl, mergeDependency_subsumption.1 [] sampleDepAB ["b"] rfl⟩

/-- C3: the subsumption check is asymmetric. With existing entry `a.b.c`,
offering the shorter-path candidate `a.b` does not remove the longer
entry; after the merge both entries are present. -/
theorem mergeDependency_no_shrink :
    mergeDependency [{ place := samplePlaceA, path := some ["b", "c"] }]
        { place := samplePlaceA, path := some ["b"] } =
      [{ place := samplePlaceA, path := some ["b", "c"] },
       { place := samplePlaceA, path := some ["b"] }] := by
  decide

/-! ### C7: alias resolution only substitutes for anonymous temporaries -/

/-- C7: a path-qualified operand is never alias-resolved; a named
identifier is visited as itself even when an alias is recorded; an
anonymous identifier with a recorded alias resolves to the alias; and
with no recorded alias the operand is used as-is. -/
theorem resolveDependency_alias_rules :
    (∀ (ctx : Context) (dep : ReactiveScopeDependency) (p : List String),
        dep.path = some p → resolveDependency ctx dep = dep) ∧
    (∀ (ctx : Context) (dep : ReactiveScopeDependency) (n : String),
        dep.path = none → dep.place.identifier.name = some n →
        resolveDependency ctx dep = dep) ∧
    (∀ (ctx : Context) (dep : ReactiveScopeDependency)
        (propDep : ReactiveScopeDependency),
        dep.path = none → dep.place.identifier.name = none →
        mapGet ctx.properties dep.place.identifier = some propDep →
        resolveDependency ctx dep = propDep) ∧
    (∀ (ctx : Context) (dep : ReactiveScopeDependency),
        dep.path = none → mapGet ctx.properties dep.place.identifier = none →
        resolveDependency ctx dep = dep) := by
  refine ⟨?_, ?_, ?_, ?_⟩
  · intro ctx dep p hpath
    simp [resolveDependency, hpath]
  · intro ctx dep n hpath hname
    simp only [resolveDependency, hpath]
    cases hprop : mapGet ctx.properties dep.place.identifier <;> simp [hprop, hname]
  · intro ctx dep propDep hpath hname hprop
    simp [resolveDependency, hpath, hname, hprop]
  · intro ctx dep hpath hprop
    simp [resolveDependency, hpath, hprop]

/-- An anonymous temporary identifier used in the alias witness. -/
def sampleAnonIdent : Identifier :=
  { id := 2, name := none, mutableRangeStart := 1, scope := none }

/-- A context whose alias table maps the anonymous temporary to `a.x`. -/
def sampleAliasCtx : Context :=
  { declarations := [],
    dependencies := [],
    reactiveIdentifiers := [],
    properties := [(sampleAnonIdent, { place := samplePlaceA, path := some ["x"] })],
    scopes := [],
    scopeDeclarations := [],
    scopeReassignments := [],
    scopeDependencies := [] }

theorem resolveDependency_alias_rules_witness :
    resolveDependency sampleAliasCtx
        { place := { identifier := sampleAnonIdent }, path := none } =
      { place := samplePlaceA, path := some ["x"] } :=
  resolveDependency_alias_rules.2.2.1 sampleAliasCtx
    { place := { identifier := sampleAnonIdent }, path := none }
    { place := samplePlaceA, path := some ["x"] } rfl rfl (by decide)

/-! ### C4: escape promotion -/

theorem escapePromotion_pos (ctx : Context) (decl : Option Decl) (ident : Identifier)
    (d : Decl) (s : ReactiveScope) (hd : decl = some d) (hs : d.scope = some s)
    (hact : s ∉ ctx.scopes) :
    escapePromotion ctx decl ident =
      { ctx with
        scopeDeclarations :=
          mapSet ctx.scopeDeclarations s.id
            (mapSet (scopeDeclarationsOf ctx s.id) ident.id ident) } := by
  subst hd
  unfold escapePromotion
  simp only [hs]
  rw [if_neg (by simp [isScopeActive, hact])]

theorem escapePromotion_active (ctx : Context) (decl : Option Decl) (ident : Identifier)
    (d : Decl) (s : ReactiveScope) (hd : decl = some d) (hs : d.scope = some s)
    (hact : s ∈ ctx.scopes) :
    escapePromotion ctx decl ident = ctx := by
  subst hd
  unfold escapePromotion
  simp only [hs]
  rw [if_pos (by simp [isScopeActive, hact])]

theorem escapePromotion_noscope (ctx : Context) (decl : Option Decl) (ident : Identifier)
    (d : Decl) (hd : decl = some d) (hs : d.scope = none) :
    escapePromotion ctx decl ident = ctx := by
  subst hd
  unfold escapePromotion
  simp only [hs]

theorem countP_key_zero {κ α : Type} [DecidableEq κ]
    (m : List (κ × α)) (k : κ) (h : k ∉ m.map Prod.fst) :
    m.countP (fun e => decide (e.1 = k)) = 0 := by
  induction m with
  | nil => rfl
  | cons e rest ih =>
    rw [List.map_cons] at h
    have h1 : ¬ (e.1 = k) := fun he => h (by simp [he])
    have h2 : k ∉ rest.map Prod.fst := fun hm => h (List.mem_cons_of_mem _ hm)
    rw [List.countP_cons]
    simp [h1, ih h2]

theorem mapSet_countP_key {κ α : Type} [DecidableEq κ] (m : List (κ × α)) (k : κ)
    (v : α) (hnodup : (m.map Prod.fst).Nodup) :
    (mapSet m k v).countP (fun e => decide (e.1 = k)) = 1 := by
  induction m with
  | nil => simp [mapSet, List.countP_cons]
  | cons e rest ih =>
    obtain ⟨k', v'⟩ := e
    rw [List.map_cons] at hnodup
    have hnd := List.nodup_cons.mp hnodup
    by_cases hk : k' = k
    · subst hk
      rw [mapSet, if_pos rfl, List.countP_cons]
      simp [countP_key_zero rest k' hnd.1]
    · rw [mapSet, if_neg hk, List.countP_cons]
      simp [hk, ih hnd.2]

/-- C4: escape promotion fires on every visitDependency call exactly when
the resolved root's declaration records an owning scope that is not on
the current scope stack — regardless of its Const/Dynamic kind and of the
qualification test. The root identifier is then set in that scope's
declarations map under its identifier id (so, the map's keys being
distinct, it appears exactly once); in every other case (declaration
missing, no owning scope, or owning scope still active) all scopes'
declarations maps are unchanged. -/
theorem visitDependency_escape (ctx : Context) (dep : ReactiveScopeDependency) :
    (∀ d s, mapGet ctx.declarations (resolveDependency ctx dep).place.identifier.id = some d →
        d.scope = some s → s ∉ ctx.scopes →
        (visitDependency ctx dep).scopeDeclarations =
          mapSet ctx.scopeDeclarations s.id
            (mapSet (scopeDeclarationsOf ctx s.id)
              (resolveDependency ctx dep).place.identifier.id
              (resolveDependency ctx dep).place.identifier)) ∧
    (∀ d s, mapGet ctx.declarations (resolveDependency ctx dep).place.identifier.id = some d →
        d.scope = some s → s ∈ ctx.scopes →
        (visitDependency ctx dep).scopeDeclarations = ctx.scopeDeclarations) ∧
    (∀ d, mapGet ctx.declarations (resolveDependency ctx dep).place.identifier.id = some d →
        d.scope = none →
        (visitDependency ctx dep).scopeDeclarations = ctx.scopeDeclarations) ∧
    (mapGet ctx.declarations (resolveDependency ctx dep).place.identifier.id = none →
        (visitDependency ctx dep).scopeDeclarations = ctx.scopeDeclarations) ∧
    (∀ d s, mapGet ctx.declarations (resolveDependency ctx dep).place.identifier.id = some d →
        d.scope = some s → s ∉ ctx.scopes →
        ((scopeDeclarationsOf ctx s.id).map Prod.fst).Nodup →
        ((mapGet (visitDependency ctx dep).scopeDeclarations s.id).getD []).countP
          (fun e => decide (e.1 = (resolveDependency ctx dep).place.identifier.id)) = 1) := by
  have hvd : (visitDependency ctx dep).scopeDeclarations =
      (escapePromotion ctx
        (mapGet ctx.declarations (resolveDependency ctx dep).place.identifier.id)
        (resolveDependency ctx dep).place.identifier).scopeDeclarations :=
    (qualifyDependency_frame _ _ _).2.2.2.2.1
  refine ⟨?_, ?_, ?_, ?_, ?_⟩
  · intro d s hd hs hact
    rw [hvd, escapePromotion_pos ctx _ _ d s hd hs hact]
  · intro d s hd hs hact
    rw [hvd, escapePromotion_active ctx _ _ d s hd hs hact]
  · intro d hd hs
    rw [hvd, escapePromotion_noscope ctx _ _ d hd hs]
  · intro hd
    rw [hvd, hd]
    rfl
  · intro d s hd hs hact hnodup
    rw [hvd, escapePromotion_pos ctx _ _ d s hd hs hact]
    show ((mapGet (mapSet ctx.scopeDeclarations s.id _) s.id).getD []).countP _ = 1
    rw [mapGet_mapSet]
    simp only [if_pos rfl, Option.getD_some]
    exact mapSet_countP_key _ _ _ hnodup

/-- A scope that has already been exited in the escape witness. -/
def sampleClosedScope : ReactiveScope := { id := 5, rangeStart := 1, rangeEnd := 2 }

/-- The escaping identifier of the escape witness, owned by the closed
scope. -/
def sampleEscIdent : Identifier :=
  { id := 3, name := some "v", mutableRangeStart := 1, scope := some sampleClosedScope }

/-- A context in which identifier 3 was declared inside the (now closed)
scope 5 and the scope stack is empty. -/
def sampleEscapeCtx : Context :=
  { declarations := [(3, { kind := DeclKind.Const, id := 1, scope := some sampleClosedScope })],
    dependencies := [],
    reactiveIdentifiers := [],
    properties := [],
    scopes := [],
    scopeDeclarations := [],
    scopeReassignments := [],
    scopeDependencies := [] }

/-- A whole-value use of the escaped identifier. -/
def sampleEscapeDep : ReactiveScopeDependency :=
  { place := { identifier := sampleEscIdent }, path := none }

theorem visitDependency_escape_witness :
    (visitDependency sampleEscapeCtx sampleEscapeDep).scopeDeclarations =
      mapSet sampleEscapeCtx.scopeDeclarations sampleClosedScope.id
        (mapSet (scopeDeclarationsOf sampleEscapeCtx sampleClosedScope.id)
          (resolveDependency sampleEscapeCtx sampleEscapeDep).place.identifier.id
          (resolveDependency sampleEscapeCtx sampleEscapeDep).place.identifier) :=
  (visitDependency_escape sampleEscapeCtx sampleEscapeDep).1
    { kind := DeclKind.Const, id := 1, scope := some sampleClosedScope }
    sampleClosedScope (by decide) (by decide) (by decide)

/-! ### C8: reassignment tracking -/

theorem setAdd_mem {α : Type} [DecidableEq α] (s : List α) (x : α) :
    x ∈ setAdd s x := by
  by_cases h : x ∈ s <;> simp [setAdd, h]

theorem setAdd_idem {α : Type} [DecidableEq α] (s : List α) (x : α) :
    setAdd (setAdd s x) x = setAdd s x :=
  if_pos (setAdd_mem s x)

theorem mapSet_mapSet {κ α : Type} [DecidableEq κ] (m : List (κ × α)) (k : κ)
    (v v' : α) : mapSet (mapSet m k v) k v' = mapSet m k v' := by
  induction m with
  | nil => simp [mapSet]
  | cons e rest ih =>
    obtain ⟨k0, v0⟩ := e
    by_cases hk : k0 = k
    · subst hk
      simp [mapSet]
    · simp [mapSet, hk, ih]

theorem visitReassignment_not_reassign (ctx : Context) (lv : LValue)
    (h : lv.kind ≠ InstructionKind.Reassign) : visitReassignment ctx lv = ctx := by
  unfold visitReassignment
  rw [if_pos h]

theorem visitReassignment_cur_none (ctx : Context) (lv : LValue)
    (h : currentScope ctx = none) : visitReassignment ctx lv = ctx := by
  unfold visitReassignment
  split
  · rfl
  · simp only [h]

theorem visitReassignment_scope_none (ctx : Context) (lv : LValue)
    (h : lv.place.identifier.scope = none) : visitReassignment ctx lv = ctx := by
  unfold visitReassignment
  split
  · rfl
  · simp only [h]
    split
    · rename_i c s d hc hs hd
      cases hs
    · rfl

theorem visitReassignment_decl_none (ctx : Context) (lv : LValue)
    (h : mapGet ctx.declarations lv.place.identifier.id = none) :
    visitReassignment ctx lv = ctx := by
  unfold visitReassignment
  split
  · rfl
  · simp only [h]
    split
    · rename_i c s d hc hs hd
      cases hd
    · rfl

theorem visitReassignment_same_scope (ctx : Context) (lv : LValue) (d : Decl)
    (s : ReactiveScope) (hs : lv.place.identifier.scope = some s)
    (hd : mapGet ctx.declarations lv.place.identifier.id = some d)
    (heq : d.scope = some s) : visitReassignment ctx lv = ctx := by
  unfold visitReassignment
  split
  · rfl
  · simp only [hs, hd]
    split
    · rename_i c s' d' hc hs' hd'
      have hseq := Option.some.inj hs'
      have hdeq := Option.some.inj hd'
      subst hseq
      subst hdeq
      rw [if_neg (by simp [heq])]
    · rfl

theorem visitReassignment_pos (ctx : Context) (lv : LValue) (c : ReactiveScope)
    (s : ReactiveScope) (d : Decl) (hk : lv.kind = InstructionKind.Reassign)
    (hc : currentScope ctx = some c) (hs : lv.place.identifier.scope = some s)
    (hd : mapGet ctx.declarations lv.place.identifier.id = some d)
    (hne : d.scope ≠ some s) :
    visitReassignment ctx lv =
      { ctx with
        scopeReassignments :=
          mapSet ctx.scopeReassignments c.id
            (setAdd (scopeReassignmentsOf ctx c.id) lv.place.identifier) } := by
  unfold visitReassignment
  rw [if_neg (by simp [hk])]
  simp only [hc, hs, hd]
  rw [if_pos hne]

/-- C8: an identifier joins the current scope's reassignments set exactly
when the output is a reassignment, the current scope is non-null, the
identifier records an owning scope, a declaration record exists, and the
declaration's recorded scope differs from the identifier's owning scope;
in that case, from a state not yet containing it, it appears exactly
once, and a second identical call changes nothing (set semantics). -/
theorem visitReassignment_spec (ctx : Context) (lv : LValue) :
    (∀ c s d, lv.kind = InstructionKind.Reassign → currentScope ctx = some c →
        lv.place.identifier.scope = some s →
        mapGet ctx.declarations lv.place.identifier.id = some d → d.scope ≠ some s →
        (visitReassignment ctx lv).scopeReassignments =
          mapSet ctx.scopeReassignments c.id
            (setAdd (scopeReassignmentsOf ctx c.id) lv.place.identifier) ∧
        (lv.place.identifier ∉ scopeReassignmentsOf ctx c.id →
          List.count lv.place.identifier
            (scopeReassignmentsOf (visitReassignment ctx lv) c.id) = 1)) ∧
    (lv.kind ≠ InstructionKind.Reassign → visitReassignment ctx lv = ctx) ∧
    (currentScope ctx = none → visitReassignment ctx lv = ctx) ∧
    (lv.place.identifier.scope = none → visitReassignment ctx lv = ctx) ∧
    (mapGet ctx.declarations lv.place.identifier.id = none →
        visitReassignment ctx lv = ctx) ∧
    (∀ d s, lv.place.identifier.scope = some s →
        mapGet ctx.declarations lv.place.identifier.id = some d → d.scope = some s →
        visitReassignment ctx lv = ctx) ∧
    (visitReassignment (visitReassignment ctx lv) lv).scopeReassignments =
      (visitReassignment ctx lv).scopeReassignments := by
  refine ⟨?_, ?_, ?_, ?_, ?_, ?_, ?_⟩
  · intro c s d hk hc hs hd hne
    constructor
    · rw [visitReassignment_pos ctx lv c s d hk hc hs hd hne]
    · intro hnotin
      rw [visitReassignment_pos ctx lv c s d hk hc hs hd hne]
      have h1 : scopeReassignmentsOf
          { ctx with
            scopeReassignments :=
              mapSet ctx.scopeReassignments c.id
                (setAdd (scopeReassignmentsOf ctx c.id) lv.place.identifier) } c.id =
          setAdd (scopeReassignmentsOf ctx c.id) lv.place.identifier := by
        simp [scopeReassignmentsOf, mapGet_mapSet]
      rw [h1]
      simp only [setAdd]
      rw [if_neg hnotin, List.count_append]
      simp [List.count_eq_zero.mpr hnotin]
  · exact visitReassignment_not_reassign ctx lv
  · exact visitReassignment_cur_none ctx lv
  · exact visitReassignment_scope_none ctx lv
  · exact visitReassignment_decl_none ctx lv
  · intro d s hs hd heq
    exact visitReassignment_same_scope ctx lv d s hs hd heq
  · by_cases hk : lv.kind = InstructionKind.Reassign
    · rcases hc : currentScope ctx with _ | c
      · rw [visitReassignment_cur_none ctx lv hc, visitReassignment_cur_none ctx lv hc]
      · rcases hs : lv.place.identifier.scope with _ | s
        · rw [visitReassignment_scope_none ctx lv hs,
            visitReassignment_scope_none ctx lv hs]
        · rcases hd : mapGet ctx.declarations lv.place.identifier.id with _ | d
          · rw [visitReassignment_decl_none ctx lv hd,
              visitReassignment_decl_none ctx lv hd]
          · by_cases hne : d.scope = some s
            · rw [visitReassignment_same_scope ctx lv d s hs hd hne,
                visitReassignment_same_scope ctx lv d s hs hd hne]
            · rw [visitReassignment_pos ctx lv c s d hk hc hs hd hne]
              set ctx2 := { ctx with
                scopeReassignments :=
                  mapSet ctx.scopeReassignments c.id
                    (setAdd (scopeReassignmentsOf ctx c.id) lv.place.identifier) }
                with hctx2
              have hc2 : currentScope ctx2 = some c := by
                simp only [hctx2, currentScope]
                exact hc
              have hd2 : mapGet ctx2.declarations lv.place.identifier.id = some d := by
                simp only [hctx2]
                exact hd
              rw [visitReassignment_pos ctx2 lv c s d hk hc2 hs hd2 hne]
              have hS : scopeReassignmentsOf ctx2 c.id =
                  setAdd (scopeReassignmentsOf ctx c.id) lv.place.identifier := by
                simp [hctx2, scopeReassignmentsOf, mapGet_mapSet]
              simp only [hctx2]
              rw [hS, setAdd_idem, mapSet_mapSet]
    · rw [visitReassignment_not_reassign ctx lv hk,
        visitReassignment_not_reassign ctx lv hk]

/-- The outer scope owning the reassigned identifier in the witness. -/
def sampleOuterScope : ReactiveScope := { id := 10, rangeStart := 0, rangeEnd := 10 }

/-- The inner, current scope of the reassignment witness. -/
def sampleInnerScope : ReactiveScope := { id := 11, rangeStart := 2, rangeEnd := 5 }

/-- The reassigned lvalue: identifier `x` owned by the outer scope. -/
def sampleReassignLV : LValue :=
  { place := { identifier :=
      { id := 4, name := some "x", mutableRangeStart := 1, scope := some sampleOuterScope } },
    kind := InstructionKind.Reassign }

/-- A context inside the inner scope with a declaration record for `x`
whose recorded scope (none) differs from the identifier's owning scope. -/
def sampleReassignCtx : Context :=
  { declarations := [(4, { kind := DeclKind.Dynamic, id := 1, scope := none })],
    dependencies := [],
    reactiveIdentifiers := [],
    properties := [],
    scopes := [sampleInnerScope, sampleOuterScope],
    scopeDeclarations := [],
    scopeReassignments := [],
    scopeDependencies := [] }

theorem visitReassignment_spec_witness :
    (visitReassignment sampleReassignCtx sampleReassignLV).scopeReassignments =
      mapSet sampleReassignCtx.scopeReassignments sampleInnerScope.id
        (setAdd (scopeReassignmentsOf sampleReassignCtx sampleInnerScope.id)
          sampleReassignLV.place.identifier) :=
  ((visitReassignment_spec sampleReassignCtx sampleReassignLV).1 sampleInnerScope
    sampleOuterScope { kind := DeclKind.Dynamic, id := 1, scope := none }
    rfl rfl rfl (by decide) (by decide)).1

/-! ### C9: initial declarations -/

theorem declareParams_declarations (params : List Place) (ctx ctx' : Context)
    (h : ctx.declarations = ctx'.declarations) :
    (params.foldl
      (fun c param => declare c param.identifier
        { kind := DeclKind.Dynamic, id := 0, scope := none }) ctx).declarations =
    (params.foldl
      (fun c param => declare c param.identifier
        { kind := DeclKind.Dynamic, id := 0, scope := none }) ctx').declarations := by
  induction params generalizing ctx ctx' with
  | nil => exact h
  | cons p rest ih =>
    rw [List.foldl_cons, List.foldl_cons]
    exact ih _ _ (by simp [declare, h])

theorem declareParams_mapGet (params : List Place) (ctx : Context) (k : Nat) :
    mapGet (params.foldl
      (fun c param => declare c param.identifier
        { kind := DeclKind.Dynamic, id := 0, scope := none }) ctx).declarations k =
    if ∃ p ∈ params, p.identifier.id = k
      then some { kind := DeclKind.Dynamic, id := 0, scope := none }
      else mapGet ctx.declarations k := by
  induction params generalizing ctx with
  | nil => simp
  | cons p rest ih =>
    rw [List.foldl_cons, ih]
    by_cases hp : p.identifier.id = k <;>
      by_cases hr : ∃ q ∈ rest, q.identifier.id = k <;>
        simp [declare, mapGet_mapSet, hp, hr]

theorem qualifyDependency_const (ctx : Context) (decl : Option Decl)
    (m : ReactiveScopeDependency) (d : Decl) (hd : decl = some d)
    (hk : d.kind = DeclKind.Const) :
    (qualifyDependency ctx decl m).dependencies = ctx.dependencies := by
  subst hd
  unfold qualifyDependency
  split
  · rename_i c d' hc hd'
    have hde := Option.some.inj hd'
    subst hde
    rw [if_neg]
    intro hcond
    exact hcond.1 hk
  · rfl

/-- C9: before traversal, every parameter is declared Dynamic at
instruction id 0 with no owning scope, independently of the oracle set;
such a declaration passes the Dynamic, declared-before and inactive-scope
parts of the qualification test against any scope whose range starts
after instruction 0. The function's own identifier, when present (and not
shadowed by a parameter with the same id), is declared Const at
instruction id 0, and a Const declaration record can never let an operand
into any working dependency set. -/
theorem initContext_spec :
    (∀ (R S : List Identifier) (fn : ReactiveFunction),
        (initContext R fn).declarations = (initContext S fn).declarations) ∧
    (∀ (R : List Identifier) (fn : ReactiveFunction) (p : Place), p ∈ fn.params →
        mapGet (initContext R fn).declarations p.identifier.id =
          some { kind := DeclKind.Dynamic, id := 0, scope := none }) ∧
    (∀ (R : List Identifier) (fn : ReactiveFunction) (p : Place) (C : ReactiveScope),
        p ∈ fn.params → 0 < C.rangeStart →
        ∃ d, mapGet (initContext R fn).declarations p.identifier.id = some d ∧
          d.kind ≠ DeclKind.Const ∧ d.id < C.rangeStart ∧ d.scope = none) ∧
    (∀ (R : List Identifier) (fn : ReactiveFunction) (fnId : Identifier),
        fn.id = some fnId → (∀ p ∈ fn.params, p.identifier.id ≠ fnId.id) →
        mapGet (initContext R fn).declarations fnId.id =
          some { kind := DeclKind.Const, id := 0, scope := none }) ∧
    (∀ (ctx : Context) (dep : ReactiveScopeDependency) (d : Decl),
        mapGet ctx.declarations (resolveDependency ctx dep).place.identifier.id = some d →
        d.kind = DeclKind.Const →
        (visitDependency ctx dep).dependencies = ctx.dependencies) := by
  have hparam : ∀ (R : List Identifier) (fn : ReactiveFunction) (p : Place),
      p ∈ fn.params →
      mapGet (initContext R fn).declarations p.identifier.id =
        some { kind := DeclKind.Dynamic, id := 0, scope := none } := by
    intro R fn p hp
    simp only [initContext]
    rw [declareParams_mapGet]
    rw [if_pos ⟨p, hp, rfl⟩]
  refine ⟨?_, hparam, ?_, ?_, ?_⟩
  · intro R S fn
    simp only [initContext]
    apply declareParams_declarations
    cases fn.id <;> simp [declare]
  · intro R fn p C hp hC
    exact ⟨{ kind := DeclKind.Dynamic, id := 0, scope := none },
      hparam R fn p hp, by simp, hC, rfl⟩
  · intro R fn fnId hfn hnp
    simp only [initContext]
    rw [declareParams_mapGet]
    rw [if_neg]
    · rw [hfn]
      simp [declare, mapGet_mapSet, mapGet]
    · rintro ⟨q, hq, hqid⟩
      exact hnp q hq hqid
  · intro ctx dep d hd hk
    have h1 : (visitDependency ctx dep).dependencies =
        (escapePromotion ctx
          (mapGet ctx.declarations (resolveDependency ctx dep).place.identifier.id)
          (resolveDependency ctx dep).place.identifier).dependencies :=
      qualifyDependency_const _ _ (resolveDependency ctx dep) d hd hk
    rw [h1]
    exact (escapePromotion_frame ctx _ _).2.1

/-- A one-parameter function with an empty body, used by the init witness. -/
def sampleParamFn : ReactiveFunction :=
  { id := none, params := [samplePlaceA], body := [] }

theorem initContext_spec_witness :
    samplePlaceA ∈ sampleParamFn.params ∧
    mapGet (initContext [] sampleParamFn).declarations samplePlaceA.identifier.id =
      some { kind := DeclKind.Dynamic, id := 0, scope := none } :=
  ⟨by decide, initContext_spec.2.1 [] sampleParamFn samplePlaceA (by decide)⟩

/-! ### C10: property loads with an output only record an alias -/

theorem visitReassignment_frame (ctx : Context) (lv : LValue) :
    (visitReassignment ctx lv).declarations = ctx.declarations ∧
    (visitReassignment ctx lv).dependencies = ctx.dependencies ∧
    (visitReassignment ctx lv).scopes = ctx.scopes ∧
    (visitReassignment ctx lv).reactiveIdentifiers = ctx.reactiveIdentifiers ∧
    (visitReassignment ctx lv).properties = ctx.properties ∧
    (visitReassignment ctx lv).scopeDeclarations = ctx.scopeDeclarations ∧
    (visitReassignment ctx lv).scopeDependencies = ctx.scopeDependencies := by
  by_cases hk : lv.kind = InstructionKind.Reassign
  · rcases hc : currentScope ctx with _ | c
    · rw [visitReassignment_cur_none ctx lv hc]
      exact ⟨rfl, rfl, rfl, rfl, rfl, rfl, rfl⟩
    · rcases hs : lv.place.identifier.scope with _ | s
      · rw [visitReassignment_scope_none ctx lv hs]
        exact ⟨rfl, rfl, rfl, rfl, rfl, rfl, rfl⟩
      · rcases hd : mapGet ctx.declarations lv.place.identifier.id with _ | d
        · rw [visitReassignment_decl_none ctx lv hd]
          exact ⟨rfl, rfl, rfl, rfl, rfl, rfl, rfl⟩
        · by_cases hne : d.scope = some s
          · rw [visitReassignment_same_scope ctx lv d s hs hd hne]
            exact ⟨rfl, rfl, rfl, rfl, rfl, rfl, rfl⟩
          · rw [visitReassignment_pos ctx lv c s d hk hc hs hd hne]
            simp
  · rw [visitReassignment_not_reassign ctx lv hk]
    exact ⟨rfl, rfl, rfl, rfl, rfl, rfl, rfl⟩

/-- C10: visiting a PropertyLoad value with an output binding only records
the property alias for the output — it is exactly declareProperty, which
touches only the alias table: the working dependency set, every scope's
declarations/dependencies/reassignments and the declaration table are all
unchanged, so the load alone contributes no dependency and no escape
entry even if its object was declared in an already-closed scope. The
object operand is visited (visitProperty) only when the load has no
output; and the surrounding instruction visit also leaves the working
set, scope declarations and scope dependencies unchanged. -/
theorem visitInstructionValue_propertyLoad (ctx : Context) (object : Place)
    (property : String) (lv : LValue) :
    visitInstructionValue ctx (ReactiveValue.PropertyLoad object property) (some lv) =
      declareProperty ctx lv.place object property ∧
    (declareProperty ctx lv.place object property).dependencies = ctx.dependencies ∧
    (declareProperty ctx lv.place object property).declarations = ctx.declarations ∧
    (declareProperty ctx lv.place object property).scopes = ctx.scopes ∧
    (declareProperty ctx lv.place object property).scopeDeclarations =
      ctx.scopeDeclarations ∧
    (declareProperty ctx lv.place object property).scopeReassignments =
      ctx.scopeReassignments ∧
    (declareProperty ctx lv.place object property).scopeDependencies =
      ctx.scopeDependencies ∧
    visitInstructionValue ctx (ReactiveValue.PropertyLoad object property) none =
      visitProperty ctx object property ∧
    (visitInstruction ctx { lvalue := some lv, value := ReactiveValue.PropertyLoad object property }).dependencies = ctx.dependencies ∧
    (visitInstruction ctx { lvalue := some lv, value := ReactiveValue.PropertyLoad object property }).scopeDeclarations = ctx.scopeDeclarations ∧
    (visitInstruction ctx { lvalue := some lv, value := ReactiveValue.PropertyLoad object property }).scopeDependencies = ctx.scopeDependencies := by
  obtain ⟨hr1, hr2, hr3, hr4, hr5, hr6, hr7⟩ :=
    visitReassignment_frame (declareProperty ctx lv.place object property) lv
  refine ⟨rfl, rfl, rfl, rfl, rfl, rfl, rfl, rfl, ?_, ?_, ?_⟩
  · simp only [visitInstruction, visitInstructionValue, declare]
    rw [hr2]
    rfl
  · simp only [visitInstruction, visitInstructionValue, declare]
    rw [hr6]
    rfl
  · simp only [visitInstruction, visitInstructionValue, declare]
    rw [hr7]
    rfl

/-! ### C6: sequential property-chain compression -/

/-- The Dynamic parameter `obj` of the chain scenario. -/
def objIdent : Identifier :=
  { id := 1, name := some "obj", mutableRangeStart := 0, scope := none }

/-- The parameter place for `obj`. -/
def objPlace : Place := { identifier := objIdent }

/-- The anonymous temporary `t1` holding `obj.x`. -/
def t1Ident : Identifier := { id := 2, name := none, mutableRangeStart := 1, scope := none }

/-- The anonymous temporary `t2` holding `t1.y`. -/
def t2Ident : Identifier := { id := 3, name := none, mutableRangeStart := 2, scope := none }

/-- The scope `S` enclosing the three chain instructions. -/
def chainScope : ReactiveScope := { id := 1, rangeStart := 1, rangeEnd := 4 }

/-- The chain function: `t1 = obj.x; t2 = t1.y; use(t2)` inside `S`, with
`obj` a parameter. -/
def chainFn : ReactiveFunction :=
  { id := none,
    params := [objPlace],
    body := [ReactiveItem.scope chainScope
      [ReactiveItem.instruction { lvalue := some { place := { identifier := t1Ident }, kind := InstructionKind.Const }, value := ReactiveValue.PropertyLoad objPlace "x" },
       ReactiveItem.instruction { lvalue := some { place := { identifier := t2Ident }, kind := InstructionKind.Const }, value := ReactiveValue.PropertyLoad { identifier := t1Ident } "y" },
       ReactiveItem.instruction { lvalue := none, value := ReactiveValue.Other [{ identifier := t2Ident }] }]] }

/-- C6: running the pass on the chain function records exactly the single
dependency `{root: obj, path: ["x","y"]}` for scope `S`, and no recorded
dependency is rooted at `t1` or `t2`. -/
theorem chainFn_dependencies :
    (propagateScopeDependencies [objIdent] chainFn).scopeDependencies =
      [(chainScope.id, [{ place := objPlace, path := some ["x", "y"] }])] ∧
    (∀ dep ∈ [({ place := objPlace, path := some ["x", "y"] } : ReactiveScopeDependency)],
      dep.place.identifier.id ≠ t1Ident.id ∧ dep.place.identifier.id ≠ t2Ident.id) := by
  constructor
  · rfl
  · decide

/-! ### C5: Const exclusion -/

/-- The parameter `p` of the Const-exclusion counterexample. -/
def pIdent : Identifier := { id := 1, name := some "p", mutableRangeStart := 0, scope := none }

/-- The place for parameter `p`. -/
def pPlace : Place := { identifier := pIdent }

/-- The scope using `p` in the counterexample. -/
def cexScope : ReactiveScope := { id := 1, rangeStart := 1, rangeEnd := 3 }

/-- A function whose only scope reads parameter `p`. -/
def cexFn : ReactiveFunction :=
  { id := none,
    params := [pPlace],
    body := [ReactiveItem.scope cexScope
      [ReactiveItem.instruction { lvalue := none, value := ReactiveValue.Other [pPlace] }]] }

/-- C5 counterexample: with an empty oracle set the parameter `p` is
non-reactive, yet the pass records `p` as a dependency of scope 1 —
parameters are declared Dynamic without consulting the oracle, so a
non-reactive identifier declared as a parameter can appear in a scope's
dependency set. -/
theorem cexFn_nonreactive_param_dependency :
    (pIdent ∈ ([] : List Identifier) → False) ∧
    mapGet (propagateScopeDependencies [] cexFn).scopeDependencies cexScope.id =
      some [{ place := pPlace, path := none }] :=
  ⟨by decide, by rfl⟩

/-- The Const-exclusion invariant for an identifier id `i`: no Dynamic
declaration record is keyed by `i`, no working or recorded dependency is
rooted at an identifier with id `i`, and no oracle-marked identifier has
id `i`. -/
def ConstExcluded (i : Nat) (ctx : Context) : Prop :=
  (∀ k d, mapGet ctx.declarations k = some d → d.kind = DeclKind.Dynamic → k ≠ i) ∧
  (∀ dep ∈ ctx.dependencies, dep.place.identifier.id ≠ i) ∧
  (∀ sid deps, mapGet ctx.scopeDependencies sid = some deps →
    ∀ dep ∈ deps, dep.place.identifier.id ≠ i) ∧
  (∀ j ∈ ctx.reactiveIdentifiers, j.id ≠ i)

theorem foldl_preserve {β : Type} (P : Context → Prop) (f : Context → β → Context)
    (hf : ∀ c x, P c → P (f c x)) :
    ∀ (l : List β) (c : Context), P c → P (l.foldl f c)
  | [], _, h => h
  | x :: rest, c, h => foldl_preserve P f hf rest (f c x) (hf c x h)

theorem visitDependency_frame (ctx : Context) (dep : ReactiveScopeDependency) :
    (visitDependency ctx dep).declarations = ctx.declarations ∧
    (visitDependency ctx dep).scopes = ctx.scopes ∧
    (visitDependency ctx dep).reactiveIdentifiers = ctx.reactiveIdentifiers ∧
    (visitDependency ctx dep).properties = ctx.properties ∧
    (visitDependency ctx dep).scopeDependencies = ctx.scopeDependencies := by
  obtain ⟨he1, he2, he3, he4, he5, he6, he7⟩ := escapePromotion_frame ctx
    (mapGet ctx.declarations (resolveDependency ctx dep).place.identifier.id)
    (resolveDependency ctx dep).place.identifier
  obtain ⟨hq1, hq2, hq3, hq4, hq5, hq6, hq7⟩ := qualifyDependency_frame
    (escapePromotion ctx
      (mapGet ctx.declarations (resolveDependency ctx dep).place.identifier.id)
      (resolveDependency ctx dep).place.identifier)
    (mapGet ctx.declarations (resolveDependency ctx dep).place.identifier.id)
    (resolveDependency ctx dep)
  exact ⟨hq1.trans he1, hq2.trans he3, hq3.trans he4, hq4.trans he5, hq7.trans he7⟩

theorem qualifyDependency_dependencies_sub (ctx : Context) (decl : Option Decl)
    (m : ReactiveScopeDependency) :
    ∀ x ∈ (qualifyDependency ctx decl m).dependencies,
      x ∈ ctx.dependencies ∨ (x = m ∧ ∃ d, decl = some d ∧ d.kind ≠ DeclKind.Const) := by
  intro x hx
  unfold qualifyDependency at hx
  cases decl with
  | none =>
    cases hcs : currentScope ctx <;> simp only [hcs] at hx <;> exact Or.inl hx
  | some d =>
    cases hcs : currentScope ctx with
    | none =>
      simp only [hcs] at hx
      exact Or.inl hx
    | some c =>
      simp only [hcs] at hx
      split at hx
      · rename_i hcond
        have hx' : x ∈ mergeDependency ctx.dependencies m := hx
        rcases mergeDependency_mem ctx.dependencies m x hx' with h | h
        · exact Or.inl h
        · exact Or.inr ⟨h, d, rfl, hcond.1⟩
      · exact Or.inl hx

theorem visitDependency_dependencies_sub (ctx : Context) (dep : ReactiveScopeDependency) :
    ∀ x ∈ (visitDependency ctx dep).dependencies,
      x ∈ ctx.dependencies ∨
      (x = resolveDependency ctx dep ∧
        ∃ d, mapGet ctx.declarations (resolveDependency ctx dep).place.identifier.id = some d ∧
          d.kind ≠ DeclKind.Const) := by
  intro x hx
  have hx' : x ∈ (qualifyDependency
      (escapePromotion ctx
        (mapGet ctx.declarations (resolveDependency ctx dep).place.identifier.id)
        (resolveDependency ctx dep).place.identifier)
      (mapGet ctx.declarations (resolveDependency ctx dep).place.identifier.id)
      (resolveDependency ctx dep)).dependencies := hx
  rcases qualifyDependency_dependencies_sub _ _ _ x hx' with h | ⟨hm, d, hd, hk⟩
  · rw [(escapePromotion_frame ctx _ _).2.1] at h
    exact Or.inl h
  · exact Or.inr ⟨hm, d, hd, hk⟩

theorem visitDependency_constExcluded (i : Nat) (ctx : Context)
    (dep : ReactiveScopeDependency) (h : ConstExcluded i ctx) :
    ConstExcluded i (visitDependency ctx dep) := by
  obtain ⟨h1, h2, h3, h4⟩ := h
  obtain ⟨hf1, hf2, hf3, hf4, hf5⟩ := visitDependency_frame ctx dep
  refine ⟨?_, ?_, ?_, ?_⟩
  · intro k d hk hdyn
    rw [hf1] at hk
    exact h1 k d hk hdyn
  · intro x hx
    rcases visitDependency_dependencies_sub ctx dep x hx with hmem | ⟨hm, d, hd, hkind⟩
    · exact h2 x hmem
    · subst hm
      have hdk : d.kind = DeclKind.Dynamic := by
        cases hdk : d.kind
        · exact absurd hdk hkind
        · rfl
      exact h1 _ d hd hdk
  · intro sid deps hsd dep' hdep'
    rw [hf5] at hsd
    exact h3 sid deps hsd dep' hdep'
  · intro j hj
    rw [hf3] at hj
    exact h4 j hj

theorem declare_constExcluded (i : Nat) (ctx : Context) (ident : Identifier)
    (decl : Decl) (h : ConstExcluded i ctx)
    (hdyn : decl.kind = DeclKind.Dynamic → ident.id ≠ i) :
    ConstExcluded i (declare ctx ident decl) := by
  obtain ⟨h1, h2, h3, h4⟩ := h
  refine ⟨?_, h2, h3, h4⟩
  intro k d hk hd
  have hk' : mapGet (mapSet ctx.declarations ident.id decl) k = some d := hk
  rw [mapGet_mapSet] at hk'
  by_cases he : ident.id = k
  · rw [if_pos he] at hk'
    have hde := Option.some.inj hk'
    subst hde
    intro hki
    exact hdyn hd (he.trans hki)
  · rw [if_neg he] at hk'
    exact h1 k d hk' hd

theorem visitReassignment_constExcluded (i : Nat) (ctx : Context) (lv : LValue)
    (h : ConstExcluded i ctx) : ConstExcluded i (visitReassignment ctx lv) := by
  obtain ⟨h1, h2, h3, h4⟩ := h
  obtain ⟨hr1, hr2, hr3, hr4, hr5, hr6, hr7⟩ := visitReassignment_frame ctx lv
  refine ⟨?_, ?_, ?_, ?_⟩
  · intro k d hk hd
    rw [hr1] at hk
    exact h1 k d hk hd
  · intro x hx
    rw [hr2] at hx
    exact h2 x hx
  · intro sid deps hsd dep hdep
    rw [hr7] at hsd
    exact h3 sid deps hsd dep hdep
  · intro j hj
    rw [hr4] at hj
    exact h4 j hj

theorem visitReactiveValue_constExcluded (i : Nat) (value : ReactiveValue)
    (ctx : Context) (h : ConstExcluded i ctx) :
    ConstExcluded i (visitReactiveValue ctx value) :=
  foldl_preserve (ConstExcluded i) (fun c operand => visitOperand c operand)
    (fun c x hc => visitDependency_constExcluded i c _ hc)
    (eachReactiveValueOperand value) ctx h

theorem visitInstruction_constExcluded (i : Nat) (ctx : Context)
    (instr : ReactiveInstruction) (h : ConstExcluded i ctx) :
    ConstExcluded i (visitInstruction ctx instr) := by
  obtain ⟨lvalue, value⟩ := instr
  have hval : ConstExcluded i (visitInstructionValue ctx value lvalue) := by
    cases value with
    | PropertyLoad object property =>
      cases lvalue with
      | some lv =>
        obtain ⟨h1, h2, h3, h4⟩ := h
        exact ⟨h1, h2, h3, h4⟩
      | none =>
        exact visitDependency_constExcluded i ctx _ h
    | Other ops =>
      exact foldl_preserve (ConstExcluded i) (fun c operand => visitOperand c operand)
        (fun c x hc => visitDependency_constExcluded i c _ hc) ops ctx h
  cases lvalue with
  | none => exact hval
  | some lv =>
    have hctx2 := visitReassignment_constExcluded i
      (visitInstructionValue ctx value (some lv)) lv hval
    refine declare_constExcluded i _ lv.place.identifier _ hctx2 ?_
    intro hdk
    simp only at hdk
    by_cases hr : isReactive
        (visitReassignment (visitInstructionValue ctx value (some lv)) lv)
        lv.place.identifier = true
    · have hmem : lv.place.identifier ∈
          (visitReassignment (visitInstructionValue ctx value (some lv)) lv).reactiveIdentifiers := by
        simpa [isReactive] using hr
      exact hctx2.2.2.2 _ hmem
    · rw [if_neg hr] at hdk
      cases hdk

mutual

theorem visit_constExcluded (i : Nat) :
    ∀ (block : List ReactiveItem) (ctx : Context),
      ConstExcluded i ctx → ConstExcluded i (visit ctx block)
  | [], _, h => h
  | item :: rest, ctx, h =>
    visit_constExcluded i rest (visitItem ctx item) (visitItem_constExcluded i item ctx h)

theorem visitItem_constExcluded (i : Nat) :
    ∀ (item : ReactiveItem) (ctx : Context),
      ConstExcluded i ctx → ConstExcluded i (visitItem ctx item)
  | .scope scope instructions, ctx, h => by
    obtain ⟨h1, h2, h3, h4⟩ := h
    have hctx1 : ConstExcluded i
        { ctx with dependencies := [], scopes := scope :: ctx.scopes } := by
      refine ⟨h1, ?_, h3, h4⟩
      intro x hx
      simp at hx
    have hctx2 := visit_constExcluded i instructions _ hctx1
    obtain ⟨g1, g2, g3, g4⟩ := hctx2
    have hctx3 : ConstExcluded i
        { visit { ctx with dependencies := [], scopes := scope :: ctx.scopes } instructions with
          scopes := (visit { ctx with dependencies := [], scopes := scope :: ctx.scopes } instructions).scopes.tail,
          dependencies := ctx.dependencies,
          scopeDependencies :=
            mapSet (visit { ctx with dependencies := [], scopes := scope :: ctx.scopes } instructions).scopeDependencies
              scope.id
              (visit { ctx with dependencies := [], scopes := scope :: ctx.scopes } instructions).dependencies } := by
      refine ⟨g1, ?_, ?_, g4⟩
      · intro x hx
        exact h2 x hx
      · intro sid deps hsd dep hdep
        have hsd' : mapGet
            (mapSet (visit { ctx with dependencies := [], scopes := scope :: ctx.scopes } instructions).scopeDependencies
              scope.id
              (visit { ctx with dependencies := [], scopes := scope :: ctx.scopes } instructions).dependencies)
            sid = some deps := hsd
        rw [mapGet_mapSet] at hsd'
        by_cases he : scope.id = sid
        · rw [if_pos he] at hsd'
          have hde := Option.some.inj hsd'
          subst hde
          exact g2 dep hdep
        · rw [if_neg he] at hsd'
          exact g3 sid deps hsd' dep hdep
    exact foldl_preserve (ConstExcluded i) (fun c dep => visitDependency c dep)
      (fun c x hc => visitDependency_constExcluded i c x hc)
      (visit { ctx with dependencies := [], scopes := scope :: ctx.scopes } instructions).dependencies
      _ hctx3
  | .instruction instr, ctx, h => visitInstruction_constExcluded i ctx instr h
  | .terminal t, ctx, h => visitTerminal_constExcluded i t ctx h

theorem visitTerminal_constExcluded (i : Nat) :
    ∀ (t : ReactiveTerminal) (ctx : Context),
      ConstExcluded i ctx → ConstExcluded i (visitTerminal ctx t)
  | .breakT, _, h => h
  | .continueT, _, h => h
  | .returnT none, _, h => h
  | .returnT (some v), ctx, h => visitDependency_constExcluded i ctx _ h
  | .throwT v, ctx, h => visitDependency_constExcluded i ctx _ h
  | .forT ini test upd loop, ctx, h =>
    visit_constExcluded i loop _
      (visitReactiveValue_constExcluded i upd _
        (visitReactiveValue_constExcluded i test _
          (visitReactiveValue_constExcluded i ini ctx h)))
  | .whileT test loop, ctx, h =>
    visit_constExcluded i loop _ (visitReactiveValue_constExcluded i test ctx h)
  | .ifT test consequent none, ctx, h =>
    visit_constExcluded i consequent _ (visitDependency_constExcluded i ctx _ h)
  | .ifT test consequent (some alt), ctx, h =>
    visit_constExcluded i alt _
      (visit_constExcluded i consequent _ (visitDependency_constExcluded i ctx _ h))
  | .switchT test cases, ctx, h =>
    visitCases_constExcluded i cases _ (visitDependency_constExcluded i ctx _ h)

theorem visitCases_constExcluded (i : Nat) :
    ∀ (cases : List (Option (List ReactiveItem))) (ctx : Context),
      ConstExcluded i ctx → ConstExcluded i (visitCases ctx cases)
  | [], _, h => h
  | none :: rest, ctx, h => visitCases_constExcluded i rest ctx h
  | some block :: rest, ctx, h =>
    visitCases_constExcluded i rest _ (visit_constExcluded i block ctx h)

end

theorem declareParams_frame (params : List Place) (ctx : Context) :
    (params.foldl
      (fun c param => declare c param.identifier
        { kind := DeclKind.Dynamic, id := 0, scope := none }) ctx).dependencies =
      ctx.dependencies ∧
    (params.foldl
      (fun c param => declare c param.identifier
        { kind := DeclKind.Dynamic, id := 0, scope := none }) ctx).reactiveIdentifiers =
      ctx.reactiveIdentifiers ∧
    (params.foldl
      (fun c param => declare c param.identifier
        { kind := DeclKind.Dynamic, id := 0, scope := none }) ctx).scopeDependencies =
      ctx.scopeDependencies := by
  induction params generalizing ctx with
  | nil => exact ⟨rfl, rfl, rfl⟩
  | cons p rest ih =>
    rw [List.foldl_cons]
    obtain ⟨i1, i2, i3⟩ := ih (declare ctx p.identifier
      { kind := DeclKind.Dynamic, id := 0, scope := none })
    exact ⟨i1, i2, i3⟩

/-- C5 (amended): for an identifier id `i` that is not the id of any
parameter and not the id of any oracle-marked-reactive identifier (in
particular, with unique identifier ids, any non-reactive identifier that
is not a function parameter), after the pass no recorded scope dependency
set and no working dependency contains an entry rooted at `i`. -/
theorem propagateScopeDependencies_const_exclusion (R : List Identifier)
    (fn : ReactiveFunction) (i : Nat)
    (hparam : ∀ p ∈ fn.params, p.identifier.id ≠ i)
    (hreact : ∀ j ∈ R, j.id ≠ i) :
    (∀ sid deps, mapGet (propagateScopeDependencies R fn).scopeDependencies sid = some deps →
      ∀ dep ∈ deps, dep.place.identifier.id ≠ i) ∧
    (∀ dep ∈ (propagateScopeDependencies R fn).dependencies,
      dep.place.identifier.id ≠ i) := by
  have hinit : ConstExcluded i (initContext R fn) := by
    refine ⟨?_, ?_, ?_, ?_⟩
    · intro k d hk hdyn
      simp only [initContext] at hk
      rw [declareParams_mapGet] at hk
      by_cases hex : ∃ p ∈ fn.params, p.identifier.id = k
      · rw [if_pos hex] at hk
        obtain ⟨p, hp, hpk⟩ := hex
        intro hki
        exact hparam p hp (hpk.trans hki)
      · rw [if_neg hex] at hk
        cases hfn : fn.id with
        | none =>
          simp only [hfn] at hk
          cases hk
        | some fnId =>
          simp only [hfn] at hk
          have hk' : mapGet (mapSet ([] : List (Nat × Decl)) fnId.id
              { kind := DeclKind.Const, id := 0, scope := none }) k = some d := hk
          rw [mapGet_mapSet] at hk'
          by_cases hfk : fnId.id = k
          · rw [if_pos hfk] at hk'
            have hde := Option.some.inj hk'
            rw [← hde] at hdyn
            cases hdyn
          · rw [if_neg hfk] at hk'
            cases hk'
    · intro x hx
      simp only [initContext] at hx
      cases hfn : fn.id with
      | none =>
        simp only [hfn] at hx
        rw [(declareParams_frame fn.params _).1] at hx
        simp at hx
      | some fnId =>
        simp only [hfn] at hx
        rw [(declareParams_frame fn.params _).1] at hx
        simp [declare] at hx
    · intro sid deps hsd
      simp only [initContext] at hsd
      cases hfn : fn.id with
      | none =>
        simp only [hfn] at hsd
        rw [(declareParams_frame fn.params _).2.2] at hsd
        simp [mapGet] at hsd
      | some fnId =>
        simp only [hfn] at hsd
        rw [(declareParams_frame fn.params _).2.2] at hsd
        simp [declare, mapGet] at hsd
    · intro j hj
      simp only [initContext] at hj
      cases hfn : fn.id with
      | none =>
        simp only [hfn] at hj
        rw [(declareParams_frame fn.params _).2.1] at hj
        simp at hj
        exact hreact j hj
      | some fnId =>
        simp only [hfn] at hj
        rw [(declareParams_frame fn.params _).2.1] at hj
        simp [declare] at hj
        exact hreact j hj
  have hfinal := visit_constExcluded i fn.body (initContext R fn) hinit
  exact ⟨hfinal.2.2.1, hfinal.2.1⟩

theorem propagateScopeDependencies_const_exclusion_witness :
    ({ place := pPlace, path := none } : ReactiveScopeDependency).place.identifier.id ≠ 2 :=
  (propagateScopeDependencies_const_exclusion [] cexFn 2 (by decide) (by decide)).1
    cexScope.id [{ place := pPlace, path := none }] (by rfl)
    { place := pPlace, path := none } (by decide)
